import Mathlib

/-!
# Concurrent traffic simulation: the phase channel and the signal controller

A shallow embedding of `src/TrafficLight.cpp`.

* `MessageQueue.receive` / `MessageQueue.send` act on the contents of `m_queue`
  (front first, back last).  Both run entirely under `m_mutex`, so each call is
  one atomic step on the container.  A `receive` whose wait predicate
  `!m_queue.empty()` is false does not complete; it is modelled by `none`.
* `TrafficLight` carries the channel contents and `m_currentPhase`.
* `cycleThroughPhases` is embedded through one iteration of its `while (true)`
  loop (`cycleIteration`); the clock reading and the random draws are inputs.
* `waitForGreen` is embedded through its loop, once over a stream of received
  values and once as a step on the shared channel.
-/

namespace TrafficSim

/-! ## Data model -/

/-- Modelled from the spec: the enumeration `TrafficLightPhase` is declared in
`TrafficLight.h`, which is not among the sources.  The spec gives it two values,
Stop and Go; the code names them `red` and `green`. -/
inductive TrafficLightPhase where
  | red
  | green
deriving DecidableEq, Repr

open TrafficLightPhase

namespace MessageQueue

/-- Body of `MessageQueue<Type>::receive` on the contents of `m_queue`.
The wait predicate is `!m_queue.empty()`: on an empty container the call stays
blocked (`none`; `getLast?` is `none` exactly on the empty list).  Otherwise the
message is `m_queue.back()` and the container after `pop_back()` is returned
with it. -/
def receive {T : Type} (m_queue : List T) : Option (T × List T) :=
  match m_queue.getLast? with
  | none => none
  | some msg => some (msg, m_queue.dropLast)

/-- Body of `MessageQueue<Type>::send`: `m_queue.clear()` followed by
`m_queue.push_back(std::move(message))`. -/
def send {T : Type} (m_queue : List T) (message : T) : List T :=
  let cleared : List T := m_queue.take 0  -- clear(): no element is kept
  cleared ++ [message]

/-- One operation on the channel. -/
inductive Op (T : Type) where
  | send (message : T)
  | receive
deriving DecidableEq, Repr

/-- Effect of one operation on the container.  A `receive` on an empty
container does not complete and leaves the container as it is. -/
def applyOp {T : Type} (m_queue : List T) : Op T → List T
  | Op.send message => send m_queue message
  | Op.receive =>
    match receive m_queue with
    | none => m_queue
    | some (_, rest) => rest

/-- Runs a sequence of operations, left to right. -/
def runOps {T : Type} (m_queue : List T) (ops : List (Op T)) : List T :=
  ops.foldl applyOp m_queue

/-- Calls `send` once for each value, in order, with no `receive` in between. -/
def sendAll {T : Type} (m_queue : List T) (values : List T) : List T :=
  values.foldl send m_queue

end MessageQueue

/-- Modelled from the spec: the class is declared in `TrafficLight.h`, which is not
among the sources.  These are the members the code reads and writes: the current
phase, and the content of the zero-or-one-value container `m_queue` of the queue
behind `m_sharedPtr_queue` (a sequence container, used through `empty`, `back`,
`pop_back`, `clear` and `push_back`). -/
structure TrafficLight where
  m_queue : List TrafficLightPhase
  m_currentPhase : TrafficLightPhase
deriving DecidableEq, Repr

/-- Constructor `TrafficLight::TrafficLight`: a fresh (empty) queue and phase `red`. -/
def TrafficLight.ctor : TrafficLight :=
  { m_queue := [], m_currentPhase := red }

/-- Method `TrafficLight::getCurrentPhase`. -/
def TrafficLight.getCurrentPhase (tl : TrafficLight) : TrafficLightPhase :=
  tl.m_currentPhase

/-! ## waitForGreen -/

/-- Loop of `TrafficLight::waitForGreen` over the stream of values returned by
its successive `receive` calls; `i` is the number of calls made so far.  The
result is the number of `receive` calls made when the method returns, `none`
when the fuel runs out first. -/
def waitForGreenLoop (received : Nat → TrafficLightPhase) : Nat → Nat → Option Nat
  | 0, _ => none
  | fuel + 1, i =>
    if received i = green then some (i + 1)
    else waitForGreenLoop received fuel (i + 1)

/-- Method `TrafficLight::waitForGreen` as a function of the received values. -/
def waitForGreen (received : Nat → TrafficLightPhase) (fuel : Nat) : Option Nat :=
  waitForGreenLoop received fuel 0

/-- An event of the channel with one `waitForGreen` caller: a producer `send`,
or the next `receive` call of the caller getting its turn. -/
inductive WaitEvent where
  | send (message : TrafficLightPhase)
  | receive
deriving DecidableEq, Repr

/-- State of the channel together with the caller: the container, and whether
`waitForGreen` has returned. -/
structure WaitState where
  m_queue : List TrafficLightPhase
  returned : Bool
deriving DecidableEq, Repr

/-- One event.  A `receive` turn of a caller still inside `waitForGreen` runs
`receive`: blocked on an empty container, otherwise the value is taken and the
method returns exactly when the value is `green`. -/
def waitStep (s : WaitState) : WaitEvent → WaitState
  | WaitEvent.send message => { s with m_queue := MessageQueue.send s.m_queue message }
  | WaitEvent.receive =>
    if s.returned then s
    else
      match MessageQueue.receive s.m_queue with
      | none => s
      | some (msg, rest) => { m_queue := rest, returned := decide (msg = green) }

/-- Runs an interleaving of producer sends and caller receives from the moment
`waitForGreen` is called on a channel holding `m_queue`. -/
def waitRun (m_queue : List TrafficLightPhase) (events : List WaitEvent) : WaitState :=
  events.foldl waitStep { m_queue := m_queue, returned := false }

/-- Values published by the producer in an interleaving. -/
def publishedIn : List WaitEvent → List TrafficLightPhase
  | [] => []
  | WaitEvent.send message :: rest => message :: publishedIn rest
  | WaitEvent.receive :: rest => publishedIn rest

/-! ## cycleThroughPhases -/

/-- Local state of `cycleThroughPhases` together with the object it works on.
`lastUpdateTime` is a `system_clock` time point in clock ticks,
`intervalThreshold` the value last drawn (every finite `double` is a rational),
`draws` the number of values drawn from `distribution(randomEngine)` so far. -/
structure CycleState where
  light : TrafficLight
  lastUpdateTime : Int
  intervalThreshold : ℚ
  draws : Nat
deriving DecidableEq, Repr

/-- Expression `duration_cast<milliseconds>(currentTime - lastUpdateTime).count()`:
the difference in ticks divided by the ticks per millisecond, truncated toward
zero.  The tick length of `system_clock` is left to the platform, so the number
of ticks per millisecond is a parameter (1000000 for a nanosecond clock). -/
def elapsedMilliseconds (ticksPerMs : Int) (currentTime lastUpdateTime : Int) : Int :=
  (currentTime - lastUpdateTime).tdiv ticksPerMs

/-- Conditional expression of line 93: `red` becomes `green`, anything else `red`. -/
def toggle (phase : TrafficLightPhase) : TrafficLightPhase :=
  if phase = red then green else red

/-- State at the top of the first loop iteration of `cycleThroughPhases`:
`lastUpdateTime` is the clock reading at entry and the first threshold is drawn. -/
def cycleStart (distribution : Nat → ℚ) (light : TrafficLight) (startTime : Int) : CycleState :=
  { light := light, lastUpdateTime := startTime,
    intervalThreshold := distribution 0, draws := 1 }

/-- One iteration of the `while (true)` loop of `cycleThroughPhases` with clock
reading `currentTime`.  The second component lists the values passed to `send`
during the iteration.  The comparison of the `long` with the `double` threshold
is the comparison of the two numbers (the conversion is exact below 2^53). -/
def cycleIteration (ticksPerMs : Int) (distribution : Nat → ℚ) (st : CycleState)
    (currentTime : Int) : CycleState × List TrafficLightPhase :=
  let elapsed : Int := elapsedMilliseconds ticksPerMs currentTime st.lastUpdateTime
  if (elapsed : ℚ) ≥ st.intervalThreshold then
    let phase := toggle st.light.m_currentPhase
    ({ light := { m_queue := MessageQueue.send st.light.m_queue phase, m_currentPhase := phase },
       lastUpdateTime := currentTime,
       intervalThreshold := distribution st.draws,
       draws := st.draws + 1 }, [phase])
  else (st, [])

/-- An event of the running controller: one poll iteration of the timer loop at
a clock reading, or a `receive` call of some consumer getting its turn. -/
inductive Event where
  | poll (currentTime : Int)
  | receive
deriving DecidableEq, Repr

/-- One event on the controller, extending the log of published values. -/
def stepEvent (ticksPerMs : Int) (distribution : Nat → ℚ)
    (s : CycleState × List TrafficLightPhase) : Event → CycleState × List TrafficLightPhase
  | Event.poll currentTime =>
    let r := cycleIteration ticksPerMs distribution s.1 currentTime
    (r.1, s.2 ++ r.2)
  | Event.receive =>
    match MessageQueue.receive s.1.light.m_queue with
    | none => s
    | some (_, rest) => ({ s.1 with light := { s.1.light with m_queue := rest } }, s.2)

/-- Runs an interleaving of poll iterations and consumer receives; the second
component is the sequence of values published through `send`, oldest first. -/
def runEvents (ticksPerMs : Int) (distribution : Nat → ℚ) (st : CycleState)
    (events : List Event) : CycleState × List TrafficLightPhase :=
  events.foldl (stepEvent ticksPerMs distribution) (st, [])

/-- Polls at the clock readings `clock k`, `clock (k+1)`, ... until an iteration
flips; the result is the state right after that flip, `none` when the fuel runs
out first. -/
def pollUntilFlip (ticksPerMs : Int) (distribution : Nat → ℚ) (clock : Nat → Int) :
    Nat → Nat → CycleState → Option CycleState
  | 0, _, _ => none
  | fuel + 1, k, st =>
    let r := cycleIteration ticksPerMs distribution st (clock k)
    if r.2 = [] then pollUntilFlip ticksPerMs distribution clock fuel (k + 1) r.1
    else some r.1

/-! ## Several consumers blocked in receive -/

/-- Consumers of one channel: the container; the identifiers of the consumers
that are inside `receive` and have not returned (`blocked`); those of them that
have been woken out of `m_conditionVariable.wait` and have yet to re-check the
wait predicate under the mutex (`runnable`), the others being asleep in the
wait; and the calls that have returned (consumer, value), oldest first. -/
structure Consumers (T : Type) where
  m_queue : List T
  blocked : List Nat
  runnable : List Nat
  returned : List (Nat × T)

/-- An event with several consumers: a `send`, where `pick` is the scheduler's
choice of the sleeping consumer that `notify_one` wakes; a spurious wake-up of
consumer `i`; or woken consumer `i` getting the mutex and running the rest of
`receive`. -/
inductive ConsumerEvent (T : Type) where
  | send (message : T) (pick : Nat)
  | spurious (i : Nat)
  | run (i : Nat)

/-- Whether an event is a `send`. -/
def ConsumerEvent.isSend {T : Type} : ConsumerEvent T → Bool
  | ConsumerEvent.send _ _ => true
  | ConsumerEvent.spurious _ => false
  | ConsumerEvent.run _ => false

/-- Call `m_conditionVariable.notify_one()` of line 34: when some consumer is
asleep in the wait (blocked and not yet woken), one of them, chosen by `pick`,
is woken; when none is asleep nothing happens. -/
def notifyOne {T : Type} (s : Consumers T) (pick : Nat) : Consumers T :=
  let asleep := s.blocked.filter (fun j => decide (j ∉ s.runnable))
  match asleep[pick % asleep.length]? with
  | none => s
  | some j => { s with runnable := j :: s.runnable }

/-- One event.  A `send` runs the body of `send`: clear, push_back, then
`notify_one`.  A spurious wake-up makes a blocked consumer runnable.  A blocked
consumer that has been woken re-checks the wait predicate under the mutex: on an
empty container it goes back to sleep, otherwise it takes `back()`, pops it and
returns. -/
def consumerStep {T : Type} (s : Consumers T) : ConsumerEvent T → Consumers T
  | ConsumerEvent.send message pick =>
    notifyOne { s with m_queue := MessageQueue.send s.m_queue message } pick
  | ConsumerEvent.spurious i =>
    if i ∈ s.blocked then { s with runnable := i :: s.runnable } else s
  | ConsumerEvent.run i =>
    if i ∈ s.blocked ∧ i ∈ s.runnable then
      match MessageQueue.receive s.m_queue with
      | none => { s with runnable := s.runnable.filter (fun j => decide (j ≠ i)) }
      | some (msg, rest) =>
        { m_queue := rest, blocked := s.blocked.erase i,
          runnable := s.runnable.filter (fun j => decide (j ≠ i)),
          returned := s.returned ++ [(i, msg)] }
    else s

/-- Runs a sequence of events on the consumers. -/
def consumerRun {T : Type} (s : Consumers T) (events : List (ConsumerEvent T)) : Consumers T :=
  events.foldl consumerStep s

/-- State with `n` consumers, numbered from 0, all asleep in the wait of
`receive` on an empty channel. -/
def allBlocked (T : Type) (n : Nat) : Consumers T :=
  { m_queue := [], blocked := List.range n, runnable := [], returned := [] }

/-! ## The channel: send and receive -/

namespace MessageQueue

theorem send_eq {T : Type} (q : List T) (v : T) : send q v = [v] := by
  simp [send]

theorem receive_nil {T : Type} : receive ([] : List T) = none := rfl

theorem receive_singleton {T : Type} (v : T) : receive [v] = some (v, []) := rfl

theorem receive_eq_none_iff {T : Type} (q : List T) : receive q = none ↔ q = [] := by
  unfold receive
  cases h : q.getLast? with
  | none => simpa using h
  | some msg =>
    simp only [reduceCtorEq, false_iff]
    intro hq
    simp [hq] at h

theorem runOps_append {T : Type} (q : List T) (xs ys : List (Op T)) :
    runOps q (xs ++ ys) = runOps (runOps q xs) ys := by
  simp [runOps, List.foldl_append]

theorem applyOp_length_le {T : Type} (q : List T) (hq : q.length ≤ 1) (op : Op T) :
    (applyOp q op).length ≤ 1 := by
  cases op with
  | send v => simp [applyOp, send_eq]
  | receive =>
    match q, hq with
    | [], _ => simp [applyOp, receive_nil]
    | [v], _ => simp [applyOp, receive_singleton]

theorem runOps_length_le {T : Type} (ops : List (Op T)) (q : List T) (hq : q.length ≤ 1) :
    (runOps q ops).length ≤ 1 := by
  induction ops generalizing q with
  | nil => simpa [runOps] using hq
  | cons op rest ih => exact ih (applyOp q op) (applyOp_length_le q hq op)

theorem applyOp_receive_of_length_le {T : Type} (q : List T) (hq : q.length ≤ 1) :
    applyOp q Op.receive = [] := by
  match q, hq with
  | [], _ => simp [applyOp, receive_nil]
  | [v], _ => simp [applyOp, receive_singleton]

theorem sendAll_concat {T : Type} (q : List T) (vs : List T) (v : T) :
    sendAll q (vs ++ [v]) = [v] := by
  simp [sendAll, List.foldl_append, send_eq]

theorem sendAll_of_ne_nil {T : Type} (q : List T) (vs : List T) (h : vs ≠ []) :
    sendAll q vs = [vs.getLast h] := by
  induction vs using List.reverseRecOn with
  | nil => exact absurd rfl h
  | append_singleton xs x _ => simp [sendAll_concat]

/-- Claim C1 (latest value wins).  From every channel state, after a non-empty
sequence of `send` calls with no `receive` in between, `receive` returns the
last value sent and leaves the channel empty, so that a further `receive`
does not return: none of the earlier values is ever delivered. -/
theorem latest_value_wins {T : Type} (q : List T) (vs : List T) (h : vs ≠ []) :
    receive (sendAll q vs) = some (vs.getLast h, []) ∧
    receive (applyOp (sendAll q vs) Op.receive) = none := by
  rw [sendAll_of_ne_nil q vs h]
  simp [receive_singleton, applyOp, receive_nil]

/-- Scenario of claim C1: `send(green)`, `send(red)`, then `receive` returns `red`. -/
theorem latest_value_wins_witness :
    [green, red] ≠ [] ∧
    receive (send (send ([] : List TrafficLightPhase) green) red) = some (red, []) :=
  ⟨by simp, (latest_value_wins ([] : List TrafficLightPhase) [green, red] (by simp)).1⟩

/-- Claim C2 (receive needs a pending value).  `receive` completes exactly on a
non-empty container.  In every state reached from the empty channel a completed
`receive` returns the one pending value and leaves the container empty.  So a
`receive` after a sequence of operations completes exactly when the operation
right before it is a `send`, whose value it returns: the most recent send, not
yet consumed by another `receive`. -/
theorem receive_iff_pending {T : Type} (ops : List (Op T)) :
    (∀ q : List T, (receive q).isSome ↔ q ≠ []) ∧
    (∀ v rest, receive (runOps [] ops) = some (v, rest) → runOps [] ops = [v] ∧ rest = []) ∧
    receive (runOps [] ops) =
      (match ops.getLast? with
       | some (Op.send v) => some (v, [])
       | _ => none) := by
  refine ⟨fun q => ?_, ?_, ?_⟩
  · rw [← not_iff_not, Bool.not_eq_true, Option.not_isSome, Option.isNone_iff_eq_none,
      receive_eq_none_iff]
    simp
  · intro v rest hr
    have hlen := runOps_length_le ops ([] : List T) (by simp)
    match hq : runOps ([] : List T) ops, hlen with
    | [], _ => rw [hq, receive_nil] at hr; cases hr
    | [w], _ =>
      rw [hq, receive_singleton] at hr
      cases hr
      exact ⟨rfl, rfl⟩
  · induction ops using List.reverseRecOn with
    | nil => rfl
    | append_singleton xs op _ =>
      rw [runOps_append, List.getLast?_append]
      cases op with
      | send v => simp [runOps, applyOp, send_eq, receive_singleton]
      | receive =>
        have hlen := runOps_length_le xs ([] : List T) (by simp)
        have h1 : runOps (runOps ([] : List T) xs) [Op.receive] = [] :=
          applyOp_receive_of_length_le _ hlen
        rw [h1]
        simp [receive_nil]

/-- Claim C3 (single slot).  Starting from the empty channel of a freshly
constructed `TrafficLight`, after every sequence of `send` and `receive`
operations the container holds at most one value, and right after a `send` it
holds exactly the value just sent. -/
theorem single_slot (ops : List (Op TrafficLightPhase)) (v : TrafficLightPhase) :
    (runOps TrafficLight.ctor.m_queue ops).length ≤ 1 ∧
    runOps TrafficLight.ctor.m_queue (ops ++ [Op.send v]) = [v] ∧
    (∀ q : List TrafficLightPhase, send q v = [v]) := by
  refine ⟨runOps_length_le ops _ (by simp [TrafficLight.ctor]), ?_, fun q => send_eq q v⟩
  rw [runOps_append]
  simp [runOps, applyOp, send_eq]

end MessageQueue

/-! ## waitForGreen over the received values -/

theorem waitForGreenLoop_first_green (received : Nat → TrafficLightPhase) (k : Nat)
    (hk : received k = green) :
    ∀ fuel i, i ≤ k → (∀ j, i ≤ j → j < k → received j = red) → k - i < fuel →
      waitForGreenLoop received fuel i = some (k + 1) := by
  intro fuel
  induction fuel with
  | zero => intro i _ _ h; omega
  | succ n ih =>
    intro i hik hred hfuel
    rcases Nat.eq_or_lt_of_le hik with heq | hlt
    · subst heq
      simp [waitForGreenLoop, hk]
    · have hi : received i = red := hred i (le_refl i) hlt
      simp only [waitForGreenLoop, hi, reduceCtorEq, if_false]
      exact ih (i + 1) hlt (fun j h1 h2 => hred j (by omega) h2) (by omega)

theorem waitForGreenLoop_some (received : Nat → TrafficLightPhase) :
    ∀ fuel i n, waitForGreenLoop received fuel i = some n →
      i < n ∧ received (n - 1) = green ∧ ∀ j, i ≤ j → j < n - 1 → received j = red := by
  intro fuel
  induction fuel with
  | zero => intro i n h; simp [waitForGreenLoop] at h
  | succ m ih =>
    intro i n h
    by_cases hg : received i = green
    · simp only [waitForGreenLoop, hg, if_true, Option.some.injEq] at h
      subst h
      refine ⟨by omega, by simpa using hg, fun j h1 h2 => ?_⟩
      simp at h2
      omega
    · simp only [waitForGreenLoop, hg, if_false] at h
      obtain ⟨h1, h2, h3⟩ := ih (i + 1) n h
      refine ⟨by omega, h2, fun j hj1 hj2 => ?_⟩
      rcases Nat.eq_or_lt_of_le hj1 with heq | hlt
      · subst heq
        cases hr : received i with
        | red => rfl
        | green => exact absurd hr hg
      · exact h3 j hlt hj2

theorem waitForGreenLoop_all_red (received : Nat → TrafficLightPhase)
    (hred : ∀ i, received i = red) : ∀ fuel i, waitForGreenLoop received fuel i = none := by
  intro fuel
  induction fuel with
  | zero => intro i; rfl
  | succ n ih =>
    intro i
    simp only [waitForGreenLoop, hred i, reduceCtorEq, if_false]
    exact ih (i + 1)

/-- Claim C4 (waitForGreen discards everything up to the first green).  As a
function of the values its successive `receive` calls return: when the first
`green` is the value of call number `k` (counting from 0), the method returns
after exactly `k + 1` calls, for every fuel above `k`; whenever it returns
after `n` calls, the last value received is `green` and all earlier ones were
`red`; and on a stream of `red` values only it never returns. -/
theorem waitForGreen_first_green (received : Nat → TrafficLightPhase) :
    (∀ k, received k = green → (∀ j, j < k → received j = red) →
      ∀ fuel, k < fuel → waitForGreen received fuel = some (k + 1)) ∧
    (∀ fuel n, waitForGreen received fuel = some n →
      0 < n ∧ received (n - 1) = green ∧ ∀ j, j < n - 1 → received j = red) ∧
    ((∀ i, received i = red) → ∀ fuel, waitForGreen received fuel = none) := by
  refine ⟨?_, ?_, ?_⟩
  · intro k hk hred fuel hfuel
    exact waitForGreenLoop_first_green received k hk fuel 0 (Nat.zero_le k)
      (fun j _ h => hred j h) (by omega)
  · intro fuel n h
    obtain ⟨h1, h2, h3⟩ := waitForGreenLoop_some received fuel 0 n h
    exact ⟨h1, h2, fun j hj => h3 j (Nat.zero_le j) hj⟩
  · intro hred fuel
    exact waitForGreenLoop_all_red received hred fuel 0

/-- On the stream red, red, green, red, ... the method returns after three calls. -/
theorem waitForGreen_first_green_witness :
    waitForGreen (fun i => if i = 2 then green else red) 3 = some 3 :=
  (waitForGreen_first_green (fun i => if i = 2 then green else red)).1 2 (by decide)
    (fun j hj => by
      have : j ≠ 2 := by omega
      simp [this]) 3 (by decide)

/-! ## waitForGreen against a producer -/

theorem waitStep_returned (s : WaitState) (e : WaitEvent) (h : s.returned = true) :
    (waitStep s e).returned = true := by
  cases e with
  | send v => simpa [waitStep] using h
  | receive => simp [waitStep, h]

theorem foldl_waitStep_returned (events : List WaitEvent) (s : WaitState)
    (h : s.returned = true) : (events.foldl waitStep s).returned = true := by
  induction events generalizing s with
  | nil => simpa using h
  | cons e rest ih => exact ih (waitStep s e) (waitStep_returned s e h)

theorem waitRun_send (q : List TrafficLightPhase) (v : TrafficLightPhase)
    (rest : List WaitEvent) : waitRun q (WaitEvent.send v :: rest) = waitRun [v] rest := by
  simp [waitRun, waitStep, MessageQueue.send_eq]

theorem waitRun_receive_nil (rest : List WaitEvent) :
    waitRun [] (WaitEvent.receive :: rest) = waitRun [] rest := by
  simp [waitRun, waitStep, MessageQueue.receive_nil]

theorem waitRun_receive_red (rest : List WaitEvent) :
    waitRun [red] (WaitEvent.receive :: rest) = waitRun [] rest := by
  simp [waitRun, waitStep, MessageQueue.receive_singleton]

theorem waitRun_receive_green (rest : List WaitEvent) :
    (waitRun [green] (WaitEvent.receive :: rest)).returned = true := by
  simp only [waitRun, List.foldl_cons]
  exact foldl_waitStep_returned rest _ (by simp [waitStep, MessageQueue.receive_singleton])

theorem waitRun_returned_iff (events : List WaitEvent) :
    ∀ q : List TrafficLightPhase, q.length ≤ 1 →
      ((waitRun q events).returned = true ↔
        (q = [green] ∧ ∃ post, events = WaitEvent.receive :: post) ∨
        (∃ pre post, events = pre ++ WaitEvent.send green :: WaitEvent.receive :: post)) := by
  induction events with
  | nil =>
    intro q _
    simp [waitRun]
  | cons e rest ih =>
    intro q hq
    cases e with
    | send v =>
      rw [waitRun_send, ih [v] (by simp)]
      constructor
      · rintro (⟨hv, post, hpost⟩ | ⟨pre, post, hpre⟩)
        · right
          refine ⟨[], post, ?_⟩
          simp at hv
          simp [hv, hpost]
        · right
          exact ⟨WaitEvent.send v :: pre, post, by simp [hpre]⟩
      · rintro (⟨_, post, hpost⟩ | ⟨pre, post, hpre⟩)
        · simp at hpost
        · cases pre with
          | nil =>
            simp at hpre
            left
            exact ⟨by simp [hpre.1], post, hpre.2⟩
          | cons x pre1 =>
            simp at hpre
            right
            exact ⟨pre1, post, hpre.2⟩
    | receive =>
      have key : (∃ pre post, WaitEvent.receive :: rest =
            pre ++ WaitEvent.send green :: WaitEvent.receive :: post) ↔
          (∃ pre post, rest = pre ++ WaitEvent.send green :: WaitEvent.receive :: post) := by
        constructor
        · rintro ⟨pre, post, hpre⟩
          cases pre with
          | nil => simp at hpre
          | cons x pre1 =>
            simp at hpre
            exact ⟨pre1, post, hpre.2⟩
        · rintro ⟨pre, post, hpre⟩
          exact ⟨WaitEvent.receive :: pre, post, by simp [hpre]⟩
      match q, hq with
      | [], _ =>
        rw [waitRun_receive_nil, ih [] (by simp), key]
        simp
      | [red], _ =>
        rw [waitRun_receive_red, ih [] (by simp), key]
        simp
      | [green], _ =>
        simp [waitRun_receive_green]

/-- Claim C5 as stated fails in both directions.  From the empty channel,
`send(green)` then `send(red)` before the caller gets to `receive`: a green
was published, the caller receives `red` and has not returned.  On a channel
that already holds `green` when the call begins, the first `receive` returns
the method although nothing was published since the call began. -/
theorem waitForGreen_iff_published_fails :
    ((waitRun [] [WaitEvent.send green, WaitEvent.send red, WaitEvent.receive,
        WaitEvent.receive]).returned = false ∧
      green ∈ publishedIn [WaitEvent.send green, WaitEvent.send red, WaitEvent.receive,
        WaitEvent.receive]) ∧
    ((waitRun [green] [WaitEvent.receive]).returned = true ∧
      green ∉ publishedIn [WaitEvent.receive]) := by
  decide

/-- Claim C5, amended.  On a channel holding at most one value when the call
begins, for every interleaving of producer sends with the caller's `receive`
turns, `waitForGreen` has returned exactly when one of its `receive` calls found
`green` pending: either `green` was pending at the start and the first event is
a `receive` of the caller, or some `send(green)` is directly followed by a
`receive` of the caller (no other send in between).  The `receive` that makes
the method return delivered `green`, never `red`. -/
theorem waitForGreen_returns_iff_green_received (q : List TrafficLightPhase)
    (events : List WaitEvent) (hq : q.length ≤ 1) :
    ((waitRun q events).returned = true ↔
      (q = [green] ∧ ∃ post, events = WaitEvent.receive :: post) ∨
      (∃ pre post, events = pre ++ WaitEvent.send green :: WaitEvent.receive :: post)) ∧
    (∀ c : List TrafficLightPhase,
      (waitStep { m_queue := c, returned := false } WaitEvent.receive).returned = true →
        ∃ rest, MessageQueue.receive c = some (green, rest)) := by
  refine ⟨waitRun_returned_iff events q hq, fun c hc => ?_⟩
  cases hr : MessageQueue.receive c with
  | none => simp [waitStep, hr] at hc
  | some p =>
    obtain ⟨msg, rest⟩ := p
    simp [waitStep, hr] at hc
    exact ⟨rest, by rw [hc]⟩

/-- From the empty channel: red is sent and received, then green is sent and
received, and the method has returned. -/
theorem waitForGreen_returns_iff_green_received_witness :
    ([] : List TrafficLightPhase).length ≤ 1 ∧
    (waitRun [] [WaitEvent.send red, WaitEvent.receive, WaitEvent.send green,
      WaitEvent.receive]).returned = true :=
  ⟨by decide,
   (waitForGreen_returns_iff_green_received []
      [WaitEvent.send red, WaitEvent.receive, WaitEvent.send green, WaitEvent.receive]
      (by decide)).1.2
      (Or.inr ⟨[WaitEvent.send red, WaitEvent.receive], [], rfl⟩)⟩

/-! ## The timer loop: one iteration -/

theorem toggle_red : toggle red = green := rfl

theorem toggle_green : toggle green = red := rfl

theorem cycleIteration_flip (ticksPerMs : Int) (distribution : Nat → ℚ) (st : CycleState)
    (currentTime : Int)
    (h : st.intervalThreshold ≤
      (elapsedMilliseconds ticksPerMs currentTime st.lastUpdateTime : ℚ)) :
    cycleIteration ticksPerMs distribution st currentTime =
      ({ light := { m_queue := [toggle st.light.m_currentPhase],
                    m_currentPhase := toggle st.light.m_currentPhase },
         lastUpdateTime := currentTime,
         intervalThreshold := distribution st.draws,
         draws := st.draws + 1 }, [toggle st.light.m_currentPhase]) := by
  simp [cycleIteration, h, MessageQueue.send_eq]

theorem cycleIteration_stay (ticksPerMs : Int) (distribution : Nat → ℚ) (st : CycleState)
    (currentTime : Int)
    (h : (elapsedMilliseconds ticksPerMs currentTime st.lastUpdateTime : ℚ) <
      st.intervalThreshold) :
    cycleIteration ticksPerMs distribution st currentTime = (st, []) := by
  simp [cycleIteration, not_le.mpr h]

/-- Claim C9 (one poll iteration).  The iteration flips exactly when the
elapsed milliseconds since `lastUpdateTime` are at least `intervalThreshold`.
When it flips, the phase is toggled (red to green, green to red), the new phase
is the one value sent and the content of the channel, `lastUpdateTime` becomes
the clock reading of this poll and a new threshold is drawn.  Otherwise the
whole state (phase, channel, `lastUpdateTime`, threshold, number of draws) is
unchanged and nothing is sent. -/
theorem cycleIteration_flip_iff (ticksPerMs : Int) (distribution : Nat → ℚ)
    (st : CycleState) (currentTime : Int) :
    ((cycleIteration ticksPerMs distribution st currentTime).2 ≠ [] ↔
      st.intervalThreshold ≤
        (elapsedMilliseconds ticksPerMs currentTime st.lastUpdateTime : ℚ)) ∧
    (st.intervalThreshold ≤ (elapsedMilliseconds ticksPerMs currentTime st.lastUpdateTime : ℚ) →
      cycleIteration ticksPerMs distribution st currentTime =
        ({ light := { m_queue := [toggle st.light.m_currentPhase],
                      m_currentPhase := toggle st.light.m_currentPhase },
           lastUpdateTime := currentTime,
           intervalThreshold := distribution st.draws,
           draws := st.draws + 1 }, [toggle st.light.m_currentPhase])) ∧
    ((elapsedMilliseconds ticksPerMs currentTime st.lastUpdateTime : ℚ) < st.intervalThreshold →
      cycleIteration ticksPerMs distribution st currentTime = (st, [])) ∧
    (toggle red = green ∧ toggle green = red) := by
  refine ⟨?_, cycleIteration_flip ticksPerMs distribution st currentTime,
    cycleIteration_stay ticksPerMs distribution st currentTime, rfl, rfl⟩
  by_cases h : st.intervalThreshold ≤
      (elapsedMilliseconds ticksPerMs currentTime st.lastUpdateTime : ℚ)
  · simp [cycleIteration_flip _ _ _ _ h, h]
  · simp [cycleIteration_stay _ _ _ _ (not_le.mp h), h]

/-- A controller 5000 ms (in nanosecond ticks) after its last flip with a
threshold of 4500 flips from red to green; 4000 ms after, it does not. -/
theorem cycleIteration_flip_iff_witness :
    cycleIteration 1000000 (fun _ => 5000)
        { light := TrafficLight.ctor, lastUpdateTime := 0, intervalThreshold := 4500, draws := 1 }
        5000000000 =
      ({ light := { m_queue := [green], m_currentPhase := green },
         lastUpdateTime := 5000000000, intervalThreshold := 5000, draws := 2 }, [green]) ∧
    cycleIteration 1000000 (fun _ => 5000)
        { light := TrafficLight.ctor, lastUpdateTime := 0, intervalThreshold := 4500, draws := 1 }
        4000000000 =
      ({ light := TrafficLight.ctor, lastUpdateTime := 0, intervalThreshold := 4500, draws := 1 },
        []) :=
  ⟨(cycleIteration_flip_iff 1000000 (fun _ => 5000)
      { light := TrafficLight.ctor, lastUpdateTime := 0, intervalThreshold := 4500, draws := 1 }
      5000000000).2.1 (by
        show (4500 : ℚ) ≤ ((elapsedMilliseconds 1000000 5000000000 0 : Int) : ℚ)
        rw [show elapsedMilliseconds 1000000 5000000000 0 = 5000 from by decide]
        norm_num),
   (cycleIteration_flip_iff 1000000 (fun _ => 5000)
      { light := TrafficLight.ctor, lastUpdateTime := 0, intervalThreshold := 4500, draws := 1 }
      4000000000).2.2.1 (by
        show ((elapsedMilliseconds 1000000 4000000000 0 : Int) : ℚ) < (4500 : ℚ)
        rw [show elapsedMilliseconds 1000000 4000000000 0 = 4000 from by decide]
        norm_num)⟩

/-! ## The timer loop interleaved with consumers -/

theorem runEvents_concat (ticksPerMs : Int) (distribution : Nat → ℚ) (st : CycleState)
    (events : List Event) (e : Event) :
    runEvents ticksPerMs distribution st (events ++ [e]) =
      stepEvent ticksPerMs distribution (runEvents ticksPerMs distribution st events) e := by
  simp [runEvents, List.foldl_append]

theorem stepEvent_receive_log (ticksPerMs : Int) (distribution : Nat → ℚ)
    (s : CycleState × List TrafficLightPhase) :
    (stepEvent ticksPerMs distribution s Event.receive).2 = s.2 ∧
    (stepEvent ticksPerMs distribution s Event.receive).1.light.m_currentPhase =
      s.1.light.m_currentPhase := by
  cases h : MessageQueue.receive s.1.light.m_queue with
  | none => simp [stepEvent, h]
  | some p => simp [stepEvent, h]

theorem stepEvent_alternates (ticksPerMs : Int) (distribution : Nat → ℚ)
    (s : CycleState × List TrafficLightPhase) (e : Event) (n : Nat)
    (hlog : s.2 = (List.range n).map (fun i => if i % 2 = 0 then green else red))
    (hphase : s.1.light.m_currentPhase = if n % 2 = 0 then red else green) :
    ∃ m, (stepEvent ticksPerMs distribution s e).2 =
        (List.range m).map (fun i => if i % 2 = 0 then green else red) ∧
      (stepEvent ticksPerMs distribution s e).1.light.m_currentPhase =
        if m % 2 = 0 then red else green := by
  cases e with
  | receive =>
    obtain ⟨h1, h2⟩ := stepEvent_receive_log ticksPerMs distribution s
    exact ⟨n, by rw [h1, hlog], by rw [h2, hphase]⟩
  | poll currentTime =>
    by_cases h : s.1.intervalThreshold ≤
        (elapsedMilliseconds ticksPerMs currentTime s.1.lastUpdateTime : ℚ)
    · refine ⟨n + 1, ?_, ?_⟩
      · simp only [stepEvent, cycleIteration_flip _ _ _ _ h, hlog, hphase, List.range_succ,
          List.map_append, List.map_cons, List.map_nil]
        rcases Nat.mod_two_eq_zero_or_one n with h0 | h1
        · simp [h0, toggle]
        · simp [h1, toggle]
      · simp only [stepEvent, cycleIteration_flip _ _ _ _ h, hphase]
        rcases Nat.mod_two_eq_zero_or_one n with h0 | h1
        · have : (n + 1) % 2 = 1 := by omega
          simp [h0, this, toggle]
        · have : (n + 1) % 2 = 0 := by omega
          simp [h1, this, toggle]
    · refine ⟨n, ?_, ?_⟩
      · simp [stepEvent, cycleIteration_stay _ _ _ _ (not_le.mp h), hlog]
      · simp [stepEvent, cycleIteration_stay _ _ _ _ (not_le.mp h), hphase]

theorem runEvents_alternates (ticksPerMs : Int) (distribution : Nat → ℚ) (startTime : Int)
    (events : List Event) :
    ∃ n, (runEvents ticksPerMs distribution
          (cycleStart distribution TrafficLight.ctor startTime) events).2 =
        (List.range n).map (fun i => if i % 2 = 0 then green else red) ∧
      (runEvents ticksPerMs distribution
          (cycleStart distribution TrafficLight.ctor startTime) events).1.light.m_currentPhase =
        if n % 2 = 0 then red else green := by
  induction events using List.reverseRecOn with
  | nil => exact ⟨0, rfl, rfl⟩
  | append_singleton xs e ih =>
    obtain ⟨n, h1, h2⟩ := ih
    rw [runEvents_concat]
    exact stepEvent_alternates ticksPerMs distribution _ e n h1 h2

theorem alternating_chain (n : Nat) :
    List.Chain' (fun a b : TrafficLightPhase => a ≠ b)
      ((List.range n).map (fun i => if i % 2 = 0 then green else red)) := by
  induction n with
  | zero => simp
  | succ k ih =>
    rw [List.range_succ, List.map_append, List.chain'_append]
    refine ⟨ih, by simp, ?_⟩
    intro x hx y hy
    simp only [List.map_cons, List.map_nil, List.head?_cons, Option.mem_def,
      Option.some.injEq] at hy
    simp only [List.getLast?_map, List.getLast?_range, Option.mem_def] at hx
    subst hy
    cases k with
    | zero => simp at hx
    | succ j =>
      simp at hx
      subst hx
      rcases Nat.mod_two_eq_zero_or_one j with h0 | h1
      · have : (j + 1) % 2 = 1 := by omega
        simp [h0, this]
      · have : (j + 1) % 2 = 0 := by omega
        simp [h1, this]

/-- Claim C6 (strict alternation).  Starting from a freshly constructed
controller (phase red, empty channel), for every interleaving of poll
iterations and consumer receives, the sequence of values published through
`send` is green, red, green, ...: every published value differs from the one
published before it, and the current phase is red or green (red after an even
number of flips, green after an odd number). -/
theorem published_alternates (ticksPerMs : Int) (distribution : Nat → ℚ) (startTime : Int)
    (events : List Event) :
    (runEvents ticksPerMs distribution
        (cycleStart distribution TrafficLight.ctor startTime) events).2 =
      (List.range (runEvents ticksPerMs distribution
          (cycleStart distribution TrafficLight.ctor startTime) events).2.length).map
        (fun i => if i % 2 = 0 then green else red) ∧
    List.Chain' (fun a b : TrafficLightPhase => a ≠ b)
      (runEvents ticksPerMs distribution
        (cycleStart distribution TrafficLight.ctor startTime) events).2 ∧
    ((runEvents ticksPerMs distribution
        (cycleStart distribution TrafficLight.ctor startTime) events).1.light.m_currentPhase = red ∨
     (runEvents ticksPerMs distribution
        (cycleStart distribution TrafficLight.ctor startTime) events).1.light.m_currentPhase =
        green) ∧
    (runEvents ticksPerMs distribution
        (cycleStart distribution TrafficLight.ctor startTime) events).1.light.m_currentPhase =
      (if (runEvents ticksPerMs distribution
          (cycleStart distribution TrafficLight.ctor startTime) events).2.length % 2 = 0
        then red else green) := by
  obtain ⟨n, h1, h2⟩ := runEvents_alternates ticksPerMs distribution startTime events
  have hn : (runEvents ticksPerMs distribution
      (cycleStart distribution TrafficLight.ctor startTime) events).2.length = n := by
    rw [h1]; simp
  refine ⟨?_, ?_, ?_, ?_⟩
  · rw [hn]; exact h1
  · rw [h1]; exact alternating_chain n
  · cases (runEvents ticksPerMs distribution
      (cycleStart distribution TrafficLight.ctor startTime) events).1.light.m_currentPhase
    · exact Or.inl rfl
    · exact Or.inr rfl
  · rw [hn]; exact h2

theorem stepEvent_agrees (ticksPerMs : Int) (distribution : Nat → ℚ)
    (s : CycleState × List TrafficLightPhase) (e : Event)
    (h : s.1.light.m_queue = [] ∨ s.1.light.m_queue = [s.1.light.m_currentPhase]) :
    (stepEvent ticksPerMs distribution s e).1.light.m_queue = [] ∨
    (stepEvent ticksPerMs distribution s e).1.light.m_queue =
      [(stepEvent ticksPerMs distribution s e).1.light.m_currentPhase] := by
  cases e with
  | receive =>
    left
    rcases h with h | h
    · simp [stepEvent, h, MessageQueue.receive_nil]
    · simp [stepEvent, h, MessageQueue.receive_singleton]
  | poll currentTime =>
    by_cases hf : s.1.intervalThreshold ≤
        (elapsedMilliseconds ticksPerMs currentTime s.1.lastUpdateTime : ℚ)
    · right
      simp [stepEvent, cycleIteration_flip _ _ _ _ hf]
    · simpa [stepEvent, cycleIteration_stay _ _ _ _ (not_le.mp hf)] using h

theorem runEvents_agrees (ticksPerMs : Int) (distribution : Nat → ℚ) (startTime : Int)
    (events : List Event) :
    (runEvents ticksPerMs distribution
        (cycleStart distribution TrafficLight.ctor startTime) events).1.light.m_queue = [] ∨
    (runEvents ticksPerMs distribution
        (cycleStart distribution TrafficLight.ctor startTime) events).1.light.m_queue =
      [(runEvents ticksPerMs distribution
        (cycleStart distribution TrafficLight.ctor startTime) events).1.light.m_currentPhase] := by
  induction events using List.reverseRecOn with
  | nil => exact Or.inl rfl
  | append_singleton xs e ih =>
    rw [runEvents_concat]
    exact stepEvent_agrees ticksPerMs distribution _ e ih

/-- Claim C10 (channel and phase agree).  In every state reached from a freshly
constructed controller by an interleaving of poll iterations (a flip toggles
and sends in one step) and consumer receives, the channel holds at most one
value and a pending value equals `m_currentPhase`.  Sending does not alter
`m_currentPhase`: right after a flip `getCurrentPhase` is the value just
published, which is also the content of the channel. -/
theorem channel_agrees_with_phase (ticksPerMs : Int) (distribution : Nat → ℚ)
    (startTime : Int) (events : List Event) :
    (∀ v ∈ (runEvents ticksPerMs distribution
        (cycleStart distribution TrafficLight.ctor startTime) events).1.light.m_queue,
      v = (runEvents ticksPerMs distribution
        (cycleStart distribution TrafficLight.ctor startTime) events).1.light.getCurrentPhase) ∧
    (runEvents ticksPerMs distribution
        (cycleStart distribution TrafficLight.ctor startTime) events).1.light.m_queue.length ≤ 1 ∧
    (∀ (st : CycleState) (currentTime : Int),
      (cycleIteration ticksPerMs distribution st currentTime).2 ≠ [] →
        (cycleIteration ticksPerMs distribution st currentTime).2 =
          [(cycleIteration ticksPerMs distribution st currentTime).1.light.getCurrentPhase] ∧
        (cycleIteration ticksPerMs distribution st currentTime).1.light.m_queue =
          [(cycleIteration ticksPerMs distribution st currentTime).1.light.getCurrentPhase] ∧
        (cycleIteration ticksPerMs distribution st currentTime).1.light.getCurrentPhase =
          toggle st.light.getCurrentPhase) := by
  refine ⟨?_, ?_, ?_⟩
  · intro v hv
    rcases runEvents_agrees ticksPerMs distribution startTime events with h | h
    · rw [h] at hv; simp at hv
    · rw [h] at hv
      simpa [TrafficLight.getCurrentPhase] using hv
  · rcases runEvents_agrees ticksPerMs distribution startTime events with h | h
    · rw [h]; simp
    · rw [h]; simp
  · intro st currentTime hne
    by_cases hf : st.intervalThreshold ≤
        (elapsedMilliseconds ticksPerMs currentTime st.lastUpdateTime : ℚ)
    · simp [cycleIteration_flip _ _ _ _ hf, TrafficLight.getCurrentPhase]
    · simp [cycleIteration_stay _ _ _ _ (not_le.mp hf)] at hne

/-- A concrete run with nanosecond ticks and thresholds 4000, 4500, 5000, 5500:
the polls at 3900 ms and at 4400 ms after a flip do nothing, the polls at 4000,
4500 and 5000 ms after the previous flip publish green, red, green, and the two
consumer receives in between take the pending green and then find nothing. -/
theorem runEvents_example :
    runEvents 1000000 (fun n => 4000 + 500 * (n : ℚ))
        (cycleStart (fun n => 4000 + 500 * (n : ℚ)) TrafficLight.ctor 0)
        [Event.poll 3900000000, Event.poll 4000000000, Event.receive, Event.receive,
         Event.poll 8400000000, Event.poll 8500000000, Event.poll 13500000000] =
      ({ light := { m_queue := [green], m_currentPhase := green },
         lastUpdateTime := 13500000000, intervalThreshold := 5500, draws := 4 },
       [green, red, green]) := by
  norm_num [runEvents, stepEvent, cycleIteration, cycleStart, elapsedMilliseconds,
    MessageQueue.send, MessageQueue.receive, toggle, TrafficLight.ctor, Int.tdiv]

/-! ## The timer loop: time between two flips -/

theorem pollUntilFlip_first (ticksPerMs : Int) (distribution : Nat → ℚ) (clock : Nat → Int)
    (st : CycleState) :
    ∀ J fuel k, J < fuel →
      (∀ j, j < J →
        (elapsedMilliseconds ticksPerMs (clock (k + j)) st.lastUpdateTime : ℚ) <
          st.intervalThreshold) →
      st.intervalThreshold ≤
        (elapsedMilliseconds ticksPerMs (clock (k + J)) st.lastUpdateTime : ℚ) →
      pollUntilFlip ticksPerMs distribution clock fuel k st =
        some (cycleIteration ticksPerMs distribution st (clock (k + J))).1 := by
  intro J
  induction J with
  | zero =>
    intro fuel k hfuel _ hflip
    obtain ⟨f, rfl⟩ : ∃ f, fuel = f + 1 := ⟨fuel - 1, by omega⟩
    simp only [Nat.add_zero] at hflip ⊢
    simp [pollUntilFlip, cycleIteration_flip _ _ _ _ hflip]
  | succ J1 ih =>
    intro fuel k hfuel hstay hflip
    obtain ⟨f, rfl⟩ : ∃ f, fuel = f + 1 := ⟨fuel - 1, by omega⟩
    have h0 := hstay 0 (by omega)
    simp only [Nat.add_zero] at h0
    have hk : k + (J1 + 1) = k + 1 + J1 := by omega
    simp only [pollUntilFlip, cycleIteration_stay _ _ _ _ h0, if_true]
    rw [hk] at hflip ⊢
    refine ih f (k + 1) (by omega) (fun j hj => ?_) hflip
    have := hstay (j + 1) (by omega)
    have hk2 : k + (j + 1) = k + 1 + j := by omega
    rwa [hk2] at this

theorem elapsedMilliseconds_spaced (ticksPerMs : Int) (lastUpdateTime : Int) (k : Nat)
    (htpm : 0 < ticksPerMs) :
    elapsedMilliseconds ticksPerMs (lastUpdateTime + ((k : Int) + 1) * (100 * ticksPerMs))
      lastUpdateTime = 100 * ((k : Int) + 1) := by
  unfold elapsedMilliseconds
  have h : lastUpdateTime + ((k : Int) + 1) * (100 * ticksPerMs) - lastUpdateTime =
      (100 * ((k : Int) + 1)) * ticksPerMs := by ring
  rw [h, Int.mul_tdiv_cancel _ (ne_of_gt htpm)]

theorem pollUntilFlip_spaced (ticksPerMs : Int) (distribution : Nat → ℚ) (clock : Nat → Int)
    (st : CycleState) (htpm : 0 < ticksPerMs)
    (hclock : ∀ k : Nat, clock k = st.lastUpdateTime + ((k : Int) + 1) * (100 * ticksPerMs))
    (J : Nat) (hJ : (100 * (J : ℚ)) < st.intervalThreshold)
    (hJ1 : st.intervalThreshold ≤ 100 * ((J : ℚ) + 1)) :
    (∀ fuel, J < fuel → pollUntilFlip ticksPerMs distribution clock fuel 0 st =
      some (cycleIteration ticksPerMs distribution st (clock J)).1) ∧
    elapsedMilliseconds ticksPerMs
      (cycleIteration ticksPerMs distribution st (clock J)).1.lastUpdateTime
      st.lastUpdateTime = 100 * ((J : Int) + 1) := by
  have hel : ∀ k : Nat, elapsedMilliseconds ticksPerMs (clock k) st.lastUpdateTime =
      100 * ((k : Int) + 1) := fun k => by
    rw [hclock k]; exact elapsedMilliseconds_spaced ticksPerMs st.lastUpdateTime k htpm
  have hflip : st.intervalThreshold ≤
      (elapsedMilliseconds ticksPerMs (clock J) st.lastUpdateTime : ℚ) := by
    rw [hel J]; push_cast; exact hJ1
  constructor
  · intro fuel hfuel
    have := pollUntilFlip_first ticksPerMs distribution clock st J fuel 0 hfuel
      (fun j hj => by
        rw [Nat.zero_add, hel j]
        push_cast
        have h1 : ((j : ℚ) + 1) ≤ (J : ℚ) := by exact_mod_cast hj
        linarith)
      (by rw [Nat.zero_add]; exact hflip)
    rw [Nat.zero_add] at this
    exact this
  · rw [cycleIteration_flip _ _ _ _ hflip]
    exact hel J

/-- Claim C7 as stated fails at its upper bound.  With nanosecond clock ticks,
a threshold of 5950 (inside [4000, 6000)) and polls every 100 ms after the last
flip, the polls at 5900 ms and before do not flip and the poll at 6000 ms does:
`lastUpdateTime` advances by 6000 ms, which is not below 6000. -/
theorem interflip_interval_below_6000_fails :
    ((4000 : ℚ) ≤ 5950 ∧ (5950 : ℚ) < 6000) ∧
    (pollUntilFlip 1000000 (fun _ => 5950) (fun k => 0 + ((k : Int) + 1) * (100 * 1000000)) 60 0
        (cycleStart (fun _ => 5950) TrafficLight.ctor 0)).map
      (fun st1 => elapsedMilliseconds 1000000 st1.lastUpdateTime 0) = some 6000 := by
  refine ⟨by norm_num, ?_⟩
  obtain ⟨h1, h2⟩ := pollUntilFlip_spaced 1000000 (fun _ => 5950)
    (fun k => 0 + ((k : Int) + 1) * (100 * 1000000))
    (cycleStart (fun _ => 5950) TrafficLight.ctor 0) (by norm_num) (fun k => rfl) 59
    (by norm_num [cycleStart]) (by norm_num [cycleStart])
  rw [h1 60 (by norm_num)]
  simp only [Option.map_some']
  rw [show (cycleStart (fun _ => (5950 : ℚ)) TrafficLight.ctor 0).lastUpdateTime = 0 from rfl] at h2
  rw [h2]
  norm_num

/-- Claim C7, amended.  For every positive number of clock ticks per
millisecond, every threshold in [4000, 6000) and polls spaced 100 ms apart
after the last flip, the loop does flip (within 60 polls), and the elapsed
whole milliseconds at that flip, by which `lastUpdateTime` advances, are at
least 4000 and at most 6000; more precisely at least the threshold and less
than the threshold plus 100. -/
theorem interflip_interval_bounds (ticksPerMs : Int) (distribution : Nat → ℚ)
    (clock : Nat → Int) (st : CycleState) (htpm : 0 < ticksPerMs)
    (hlo : 4000 ≤ st.intervalThreshold) (hhi : st.intervalThreshold < 6000)
    (hclock : ∀ k : Nat, clock k = st.lastUpdateTime + ((k : Int) + 1) * (100 * ticksPerMs)) :
    ∃ st1 : CycleState,
      (∀ fuel, 60 ≤ fuel → pollUntilFlip ticksPerMs distribution clock fuel 0 st = some st1) ∧
      4000 ≤ elapsedMilliseconds ticksPerMs st1.lastUpdateTime st.lastUpdateTime ∧
      elapsedMilliseconds ticksPerMs st1.lastUpdateTime st.lastUpdateTime ≤ 6000 ∧
      st.intervalThreshold ≤
        (elapsedMilliseconds ticksPerMs st1.lastUpdateTime st.lastUpdateTime : ℚ) ∧
      (elapsedMilliseconds ticksPerMs st1.lastUpdateTime st.lastUpdateTime : ℚ) <
        st.intervalThreshold + 100 := by
  have hm40 : 39 < ⌈st.intervalThreshold / 100⌉₊ := by
    rw [Nat.lt_ceil]; push_cast; linarith
  have hm60 : ⌈st.intervalThreshold / 100⌉₊ ≤ 60 := by
    rw [Nat.ceil_le]; push_cast; linarith
  obtain ⟨J, hJ⟩ : ∃ J, ⌈st.intervalThreshold / 100⌉₊ = J + 1 :=
    ⟨⌈st.intervalThreshold / 100⌉₊ - 1, by omega⟩
  have hlt : (100 * (J : ℚ)) < st.intervalThreshold := by
    have : J < ⌈st.intervalThreshold / 100⌉₊ := by omega
    rw [Nat.lt_ceil] at this
    linarith
  have hle : st.intervalThreshold ≤ 100 * ((J : ℚ) + 1) := by
    have := Nat.le_ceil (st.intervalThreshold / 100)
    rw [hJ] at this
    push_cast at this
    linarith
  obtain ⟨h1, h2⟩ := pollUntilFlip_spaced ticksPerMs distribution clock st htpm hclock J hlt hle
  refine ⟨(cycleIteration ticksPerMs distribution st (clock J)).1,
    fun fuel hfuel => h1 fuel (by omega), ?_, ?_, ?_, ?_⟩
  · rw [h2]; omega
  · rw [h2]; omega
  · rw [h2]; push_cast; exact hle
  · rw [h2]; push_cast; linarith

/-- A threshold of 4500 with nanosecond ticks: the flip comes at the poll
4500 ms after the last one. -/
theorem interflip_interval_bounds_witness :
    ((0 : Int) < 1000000 ∧ (4000 : ℚ) ≤ 4500 ∧ (4500 : ℚ) < 6000) ∧
    ∃ st1 : CycleState,
      (∀ fuel, 60 ≤ fuel →
        pollUntilFlip 1000000 (fun _ => 4500) (fun k => 0 + ((k : Int) + 1) * (100 * 1000000))
          fuel 0 (cycleStart (fun _ => 4500) TrafficLight.ctor 0) = some st1) ∧
      4000 ≤ elapsedMilliseconds 1000000 st1.lastUpdateTime
        (cycleStart (fun _ => 4500) TrafficLight.ctor 0).lastUpdateTime ∧
      elapsedMilliseconds 1000000 st1.lastUpdateTime
        (cycleStart (fun _ => 4500) TrafficLight.ctor 0).lastUpdateTime ≤ 6000 ∧
      (cycleStart (fun _ => 4500) TrafficLight.ctor 0).intervalThreshold ≤
        (elapsedMilliseconds 1000000 st1.lastUpdateTime
          (cycleStart (fun _ => 4500) TrafficLight.ctor 0).lastUpdateTime : ℚ) ∧
      (elapsedMilliseconds 1000000 st1.lastUpdateTime
          (cycleStart (fun _ => 4500) TrafficLight.ctor 0).lastUpdateTime : ℚ) <
        (cycleStart (fun _ => 4500) TrafficLight.ctor 0).intervalThreshold + 100 :=
  ⟨by norm_num,
   interflip_interval_bounds 1000000 (fun _ => 4500)
     (fun k => 0 + ((k : Int) + 1) * (100 * 1000000))
     (cycleStart (fun _ => 4500) TrafficLight.ctor 0) (by norm_num)
     (by norm_num [cycleStart]) (by norm_num [cycleStart]) (fun k => rfl)⟩

/-! ## Several consumers and one send -/

theorem notifyOne_spec {T : Type} (s : Consumers T) (pick : Nat) (hb : s.blocked ≠ []) :
    (notifyOne s pick).m_queue = s.m_queue ∧
    (notifyOne s pick).returned = s.returned ∧
    (notifyOne s pick).blocked = s.blocked ∧
    ∃ j, j ∈ (notifyOne s pick).runnable ∧ j ∈ (notifyOne s pick).blocked := by
  unfold notifyOne
  dsimp only
  split
  · next h =>
    refine ⟨rfl, rfl, rfl, ?_⟩
    rw [List.getElem?_eq_none_iff] at h
    have hnil : s.blocked.filter (fun j => decide (j ∉ s.runnable)) = [] := by
      by_contra hne
      have hpos : 0 < (s.blocked.filter (fun j => decide (j ∉ s.runnable))).length :=
        List.length_pos.mpr hne
      have := Nat.mod_lt pick hpos
      omega
    rw [List.filter_eq_nil_iff] at hnil
    obtain ⟨j, hj⟩ := List.exists_mem_of_ne_nil _ hb
    have := hnil j hj
    simp at this
    exact ⟨j, this, hj⟩
  · next j h =>
    refine ⟨rfl, rfl, rfl, ?_⟩
    have hj := List.getElem?_mem h
    rw [List.mem_filter] at hj
    exact ⟨j, by simp, hj.1⟩

theorem consumerStep_keeps {T : Type} (blocked0 : List Nat) (returned0 : List (Nat × T))
    (v : T) (s : Consumers T) (e : ConsumerEvent T) (he : ConsumerEvent.isSend e = false)
    (h : (s.m_queue = [v] ∧ s.returned = returned0 ∧ s.blocked = blocked0 ∧
          ∃ j, j ∈ s.runnable ∧ j ∈ s.blocked) ∨
        (s.m_queue = [] ∧ ∃ i, i ∈ blocked0 ∧ s.returned = returned0 ++ [(i, v)] ∧
          s.blocked = blocked0.erase i)) :
    ((consumerStep s e).m_queue = [v] ∧ (consumerStep s e).returned = returned0 ∧
        (consumerStep s e).blocked = blocked0 ∧
        ∃ j, j ∈ (consumerStep s e).runnable ∧ j ∈ (consumerStep s e).blocked) ∨
      ((consumerStep s e).m_queue = [] ∧ ∃ i, i ∈ blocked0 ∧
        (consumerStep s e).returned = returned0 ++ [(i, v)] ∧
        (consumerStep s e).blocked = blocked0.erase i) := by
  cases e with
  | send message pick => simp [ConsumerEvent.isSend] at he
  | spurious i =>
    by_cases hi : i ∈ s.blocked
    · simp only [consumerStep, hi, if_true]
      rcases h with ⟨h1, h2, h3, j, hj1, hj2⟩ | h
      · exact Or.inl ⟨h1, h2, h3, j, List.mem_cons_of_mem _ hj1, hj2⟩
      · exact Or.inr h
    · simpa only [consumerStep, hi, if_false] using h
  | run i =>
    by_cases hi : i ∈ s.blocked ∧ i ∈ s.runnable
    · rcases h with ⟨h1, h2, h3, _⟩ | ⟨h1, k, hk1, hk2, hk3⟩
      · right
        have hstep : consumerStep s (ConsumerEvent.run i) =
            { m_queue := [], blocked := s.blocked.erase i,
              runnable := s.runnable.filter (fun j => decide (j ≠ i)),
              returned := s.returned ++ [(i, v)] } := by
          simp [consumerStep, hi, h1, MessageQueue.receive_singleton]
        rw [hstep]
        exact ⟨rfl, i, h3 ▸ hi.1, by rw [h2], by rw [h3]⟩
      · right
        have hstep : consumerStep s (ConsumerEvent.run i) =
            { s with runnable := s.runnable.filter (fun j => decide (j ≠ i)) } := by
          simp [consumerStep, hi, h1, MessageQueue.receive_nil]
        rw [hstep]
        exact ⟨h1, k, hk1, hk2, hk3⟩
    · simpa only [consumerStep, hi, if_false] using h

theorem consumerRun_keeps {T : Type} (blocked0 : List Nat) (returned0 : List (Nat × T))
    (v : T) (events : List (ConsumerEvent T)) :
    ∀ s : Consumers T, (∀ e ∈ events, ConsumerEvent.isSend e = false) →
      ((s.m_queue = [v] ∧ s.returned = returned0 ∧ s.blocked = blocked0 ∧
          ∃ j, j ∈ s.runnable ∧ j ∈ s.blocked) ∨
        (s.m_queue = [] ∧ ∃ i, i ∈ blocked0 ∧ s.returned = returned0 ++ [(i, v)] ∧
          s.blocked = blocked0.erase i)) →
      (((consumerRun s events).m_queue = [v] ∧ (consumerRun s events).returned = returned0 ∧
          (consumerRun s events).blocked = blocked0 ∧
          ∃ j, j ∈ (consumerRun s events).runnable ∧ j ∈ (consumerRun s events).blocked) ∨
        ((consumerRun s events).m_queue = [] ∧ ∃ i, i ∈ blocked0 ∧
          (consumerRun s events).returned = returned0 ++ [(i, v)] ∧
          (consumerRun s events).blocked = blocked0.erase i)) := by
  induction events with
  | nil => intro s _ h; exact h
  | cons e rest ih =>
    intro s hev h
    exact ih (consumerStep s e) (fun x hx => hev x (List.mem_cons_of_mem _ hx))
      (consumerStep_keeps blocked0 returned0 v s e (hev e (List.mem_cons_self _ _)) h)

theorem consumerStep_run_shrinks {T : Type} (s : Consumers T) (i : Nat) :
    (consumerStep s (ConsumerEvent.run i)).runnable ⊆ s.runnable ∧
    (consumerStep s (ConsumerEvent.run i)).blocked ⊆ s.blocked ∧
    ¬ (i ∈ (consumerStep s (ConsumerEvent.run i)).runnable ∧
       i ∈ (consumerStep s (ConsumerEvent.run i)).blocked) := by
  by_cases hi : i ∈ s.blocked ∧ i ∈ s.runnable
  · cases hr : MessageQueue.receive s.m_queue with
    | none =>
      simp only [consumerStep, hi, and_self, if_true, hr]
      refine ⟨List.filter_subset' _, fun _ h => h, ?_⟩
      simp
    | some p =>
      simp only [consumerStep, hi, and_self, if_true, hr]
      refine ⟨List.filter_subset' _, List.erase_subset _ _, ?_⟩
      simp
  · simp only [consumerStep, hi, if_false]
    exact ⟨fun _ h => h, fun _ h => h, fun h => hi ⟨h.2, h.1⟩⟩

theorem consumerRun_runs_shrink {T : Type} (woken : List Nat) :
    ∀ s : Consumers T,
      (consumerRun s (woken.map ConsumerEvent.run)).runnable ⊆ s.runnable ∧
      (consumerRun s (woken.map ConsumerEvent.run)).blocked ⊆ s.blocked ∧
      ∀ j ∈ woken, ¬ (j ∈ (consumerRun s (woken.map ConsumerEvent.run)).runnable ∧
        j ∈ (consumerRun s (woken.map ConsumerEvent.run)).blocked) := by
  induction woken with
  | nil => intro s; exact ⟨fun _ h => h, fun _ h => h, fun j hj => by simp at hj⟩
  | cons i rest ih =>
    intro s
    obtain ⟨a1, a2, a3⟩ := consumerStep_run_shrinks s i
    obtain ⟨b1, b2, b3⟩ := ih (consumerStep s (ConsumerEvent.run i))
    have hrun : consumerRun s ((i :: rest).map ConsumerEvent.run) =
        consumerRun (consumerStep s (ConsumerEvent.run i)) (rest.map ConsumerEvent.run) := rfl
    rw [hrun]
    refine ⟨fun x hx => a1 (b1 hx), fun x hx => a2 (b2 hx), fun j hj => ?_⟩
    rcases List.mem_cons.mp hj with rfl | hj
    · exact fun h => a3 ⟨b1 h.1, b2 h.2⟩
    · exact b3 j hj

theorem consumerRun_append {T : Type} (s : Consumers T) (xs ys : List (ConsumerEvent T)) :
    consumerRun s (xs ++ ys) = consumerRun (consumerRun s xs) ys := by
  simp [consumerRun, List.foldl_append]

/-- Claim C8 (one send releases one consumer).  With at least one consumer
blocked in `receive`, consider one `send` (whose `notify_one` wakes a sleeping
consumer chosen by the scheduler) followed by any events that are not sends:
spurious wake-ups and woken consumers running in any order.  At every moment
either nobody has returned yet, the value is still pending and some blocked
consumer is awake and about to take it; or exactly one of the blocked
consumers has returned, with the value sent, the channel is empty and all
the others are still blocked.  So whenever no blocked consumer is left awake,
exactly one consumer has returned and the number of blocked consumers has
dropped by one; and letting each consumer that is awake run once leads to such
a state.  The others stay blocked until the next send. -/
theorem one_send_releases_one {T : Type} (s : Consumers T) (v : T) (pick : Nat)
    (events : List (ConsumerEvent T)) (hb : s.blocked ≠ [])
    (hev : ∀ e ∈ events, ConsumerEvent.isSend e = false) :
    (((consumerRun s (ConsumerEvent.send v pick :: events)).m_queue = [v] ∧
        (consumerRun s (ConsumerEvent.send v pick :: events)).returned = s.returned ∧
        (consumerRun s (ConsumerEvent.send v pick :: events)).blocked = s.blocked ∧
        ∃ j, j ∈ (consumerRun s (ConsumerEvent.send v pick :: events)).runnable ∧
          j ∈ (consumerRun s (ConsumerEvent.send v pick :: events)).blocked) ∨
      ((consumerRun s (ConsumerEvent.send v pick :: events)).m_queue = [] ∧
        ∃ i, i ∈ s.blocked ∧
          (consumerRun s (ConsumerEvent.send v pick :: events)).returned =
            s.returned ++ [(i, v)] ∧
          (consumerRun s (ConsumerEvent.send v pick :: events)).blocked = s.blocked.erase i)) ∧
    ((∀ j ∈ (consumerRun s (ConsumerEvent.send v pick :: events)).runnable,
        j ∉ (consumerRun s (ConsumerEvent.send v pick :: events)).blocked) →
      (consumerRun s (ConsumerEvent.send v pick :: events)).m_queue = [] ∧
      ∃ i, i ∈ s.blocked ∧
        (consumerRun s (ConsumerEvent.send v pick :: events)).returned =
          s.returned ++ [(i, v)] ∧
        (consumerRun s (ConsumerEvent.send v pick :: events)).blocked = s.blocked.erase i ∧
        (consumerRun s (ConsumerEvent.send v pick :: events)).blocked.length + 1 =
          s.blocked.length) ∧
    ((consumerRun s (ConsumerEvent.send v pick :: (events ++
          (consumerRun s (ConsumerEvent.send v pick :: events)).runnable.map
            ConsumerEvent.run))).m_queue = [] ∧
      ∃ i, i ∈ s.blocked ∧
        (consumerRun s (ConsumerEvent.send v pick :: (events ++
          (consumerRun s (ConsumerEvent.send v pick :: events)).runnable.map
            ConsumerEvent.run))).returned = s.returned ++ [(i, v)] ∧
        (consumerRun s (ConsumerEvent.send v pick :: (events ++
          (consumerRun s (ConsumerEvent.send v pick :: events)).runnable.map
            ConsumerEvent.run))).blocked = s.blocked.erase i) := by
  have hstart : ∀ evs : List (ConsumerEvent T), (∀ e ∈ evs, ConsumerEvent.isSend e = false) →
      (((consumerRun s (ConsumerEvent.send v pick :: evs)).m_queue = [v] ∧
          (consumerRun s (ConsumerEvent.send v pick :: evs)).returned = s.returned ∧
          (consumerRun s (ConsumerEvent.send v pick :: evs)).blocked = s.blocked ∧
          ∃ j, j ∈ (consumerRun s (ConsumerEvent.send v pick :: evs)).runnable ∧
            j ∈ (consumerRun s (ConsumerEvent.send v pick :: evs)).blocked) ∨
        ((consumerRun s (ConsumerEvent.send v pick :: evs)).m_queue = [] ∧
          ∃ i, i ∈ s.blocked ∧
            (consumerRun s (ConsumerEvent.send v pick :: evs)).returned =
              s.returned ++ [(i, v)] ∧
            (consumerRun s (ConsumerEvent.send v pick :: evs)).blocked = s.blocked.erase i)) := by
    intro evs hevs
    have hsend := notifyOne_spec
      ({ s with m_queue := MessageQueue.send s.m_queue v } : Consumers T) pick hb
    have hrun : consumerRun s (ConsumerEvent.send v pick :: evs) =
        consumerRun (notifyOne { s with m_queue := MessageQueue.send s.m_queue v } pick) evs :=
      rfl
    rw [hrun]
    refine consumerRun_keeps s.blocked s.returned v evs _ hevs (Or.inl ?_)
    obtain ⟨h1, h2, h3, h4⟩ := hsend
    exact ⟨by rw [h1]; exact MessageQueue.send_eq _ _, h2, h3, h4⟩
  have hquiet : ∀ evs : List (ConsumerEvent T), (∀ e ∈ evs, ConsumerEvent.isSend e = false) →
      (∀ j ∈ (consumerRun s (ConsumerEvent.send v pick :: evs)).runnable,
        j ∉ (consumerRun s (ConsumerEvent.send v pick :: evs)).blocked) →
      (consumerRun s (ConsumerEvent.send v pick :: evs)).m_queue = [] ∧
      ∃ i, i ∈ s.blocked ∧
        (consumerRun s (ConsumerEvent.send v pick :: evs)).returned = s.returned ++ [(i, v)] ∧
        (consumerRun s (ConsumerEvent.send v pick :: evs)).blocked = s.blocked.erase i := by
    intro evs hevs hq
    rcases hstart evs hevs with ⟨_, _, _, j, hj1, hj2⟩ | h
    · exact absurd hj2 (hq j hj1)
    · exact h
  refine ⟨hstart events hev, ?_, ?_⟩
  · intro hq
    obtain ⟨h1, i, hi, h2, h3⟩ := hquiet events hev hq
    refine ⟨h1, i, hi, h2, h3, ?_⟩
    rw [h3, List.length_erase_of_mem hi]
    have := List.length_pos_of_mem hi
    omega
  · apply hquiet
    · intro e he
      rcases List.mem_append.mp he with h | h
      · exact hev e h
      · obtain ⟨j, _, rfl⟩ := List.mem_map.mp h
        rfl
    · intro j hj
      have hsplit : consumerRun s (ConsumerEvent.send v pick :: (events ++
          (consumerRun s (ConsumerEvent.send v pick :: events)).runnable.map
            ConsumerEvent.run)) =
          consumerRun (consumerRun s (ConsumerEvent.send v pick :: events))
            ((consumerRun s (ConsumerEvent.send v pick :: events)).runnable.map
              ConsumerEvent.run) := by
        rw [← List.cons_append, consumerRun_append]
      rw [hsplit] at hj ⊢
      obtain ⟨b1, _, b3⟩ := consumerRun_runs_shrink
        (consumerRun s (ConsumerEvent.send v pick :: events)).runnable
        (consumerRun s (ConsumerEvent.send v pick :: events))
      exact fun hbl => b3 j (b1 hj) ⟨hj, hbl⟩

/-- Scenario of claim C8: five consumers asleep in `receive` on the empty
channel.  `send(green)` notifies consumer 2; consumer 4 wakes spuriously and gets
the mutex first, so it returns green, and consumers 2 and 0 find the channel
empty and sleep again: one consumer has returned and four are blocked.  Then
`send(red)` notifies consumer 1, which returns red, and three are blocked. -/
theorem one_send_releases_one_witness :
    ((allBlocked TrafficLightPhase 5).blocked ≠ [] ∧
      (∃ i, i ∈ (allBlocked TrafficLightPhase 5).blocked ∧
        (consumerRun (allBlocked TrafficLightPhase 5)
          (ConsumerEvent.send green 2 ::
            [ConsumerEvent.spurious 4, ConsumerEvent.run 4, ConsumerEvent.run 2,
             ConsumerEvent.spurious 0, ConsumerEvent.run 0])).returned =
          (allBlocked TrafficLightPhase 5).returned ++ [(i, green)]) ∧
      consumerRun (allBlocked TrafficLightPhase 5)
          [ConsumerEvent.send green 2] =
        { m_queue := [green], blocked := [0, 1, 2, 3, 4], runnable := [2], returned := [] } ∧
      consumerRun (allBlocked TrafficLightPhase 5)
          (ConsumerEvent.send green 2 ::
            [ConsumerEvent.spurious 4, ConsumerEvent.run 4, ConsumerEvent.run 2,
             ConsumerEvent.spurious 0, ConsumerEvent.run 0]) =
        { m_queue := [], blocked := [0, 1, 2, 3], runnable := [],
          returned := [(4, green)] }) ∧
    (([0, 1, 2, 3] : List Nat) ≠ [] ∧
      (∃ i, i ∈ ([0, 1, 2, 3] : List Nat) ∧
        (consumerRun
          { m_queue := [], blocked := [0, 1, 2, 3], runnable := [], returned := [(4, green)] }
          (ConsumerEvent.send red 5 :: [ConsumerEvent.run 1])).returned =
          [(4, green)] ++ [(i, red)]) ∧
      consumerRun
          { m_queue := [], blocked := [0, 1, 2, 3], runnable := [], returned := [(4, green)] }
          (ConsumerEvent.send red 5 :: [ConsumerEvent.run 1]) =
        { m_queue := [], blocked := [0, 2, 3], runnable := [],
          returned := [(4, green), (1, red)] }) :=
  ⟨⟨by decide,
    (((one_send_releases_one (allBlocked TrafficLightPhase 5) green 2
        [ConsumerEvent.spurious 4, ConsumerEvent.run 4, ConsumerEvent.run 2,
         ConsumerEvent.spurious 0, ConsumerEvent.run 0] (by decide)
        (by simp [ConsumerEvent.isSend])).2.1 (by decide)).2.imp
      (fun _ h => ⟨h.1, h.2.1⟩)),
    rfl, rfl⟩,
   ⟨by decide,
    (((one_send_releases_one
        { m_queue := [], blocked := [0, 1, 2, 3], runnable := [], returned := [(4, green)] }
        red 5
        [ConsumerEvent.run 1] (by decide)
        (by simp [ConsumerEvent.isSend])).2.1 (by decide)).2.imp
      (fun _ h => ⟨h.1, h.2.1⟩)),
    rfl⟩⟩

end TrafficSim
